import Mathlib

/-!
# Verification of the Meowcoin public API core

Shallow embedding of the algorithmic core of the Meowcoin API service:

* the in-memory cache store (`cache.js`: `Cache`, `isCacheValid`, `clearCache`),
* the cache-aside fetch orchestrator (`server.js`: `cachedFetch`),
* the consensus subsidy calculator (`server.js`: `getBlockSubsidy` and the
  60/40 miner/foundation split computed by the block-reward producers),
* the proof-of-work algorithm classifier (`detectAlgo`),
* the time-windowed block statistics aggregator (`calculateBlockStats`,
  `calculateAvgBlockTime`),
* the RPC command parser (`rpc.js`: `parseCommand`).

Modelling conventions: JavaScript numbers holding integral quantities
(timestamps, heights, unix times, versions) are embedded as `Int`/`Nat`;
monetary amounts and averages, which JavaScript computes in IEEE-754
doubles, are embedded as exact rationals (at every concrete value checked
below the double computation is exact, so the rational model agrees with
the code).  `null`/`undefined`-or-value fields become `Option`, thrown
exceptions become `Except`, and the wall-clock reads (`Date.now()`) are
threaded as explicit `now` parameters.
-/

/- ## Cache store (`cache.js`) -/

/-- The fixed key set of the `Cache.data` object literal. -/
inductive CacheKey where
  | total_supply
  | circulating_supply
  | block_reward
  | reward_breakdown
  | mining_info
  | height
  | miner_reward
  | foundation_reward
deriving DecidableEq

/-- State of the module-level `Cache` object: one optional value per key plus
the single shared `updated` timestamp (milliseconds; `0` means never written). -/
structure CacheState (V : Type) where
  data : CacheKey → Option V
  updated : Int

/-- The initial `Cache` object literal: every key `null`, `updated: 0`. -/
def Cache (V : Type) : CacheState V :=
  { data := fun _ => none, updated := 0 }

/-- Embeds `isCacheValid(ttlMs)`: false when never written, otherwise
`Date.now() - Cache.updated < ttlMs` with the clock read passed as `now`. -/
def isCacheValid {V : Type} (ttlMs : Int) (now : Int) (c : CacheState V) : Bool :=
  if c.updated = 0 then false
  else decide (now - c.updated < ttlMs)

/-- Embeds `clearCache()`: reset every key to `null` and `updated` to `0`. -/
def clearCache {V : Type} (_c : CacheState V) : CacheState V :=
  Cache V

/-- The two assignments `Cache.data[key] = value; Cache.updated = now;`
performed by `cachedFetch` on producer success. -/
def setKey {V : Type} (c : CacheState V) (key : CacheKey) (v : V) (now : Int) :
    CacheState V :=
  { data := fun k => if k = key then some v else c.data k, updated := now }

/-- Embeds `cachedFetch(key, fn)` from `server.js`, with the awaited outcome of the
producer `fn()` passed as an `Except` and the `Date.now()` read as `now`:
on a valid cache with a present key return the cached value; otherwise run
the producer; on success store the value and stamp `updated`; on failure
fall back to any previously cached value for the key, else rethrow. -/
def cachedFetch {V E : Type} (TTL : Int) (now : Int) (key : CacheKey)
    (producer : Except E V) (c : CacheState V) : Except E V × CacheState V :=
  match (if isCacheValid TTL now c then c.data key else none) with
  | some v => (Except.ok v, c)
  | none =>
    match producer with
    | Except.ok value => (Except.ok value, setKey c key value now)
    | Except.error e =>
      match c.data key with
      | some v => (Except.ok v, c)
      | none => (Except.error e, c)

/- ## Subsidy calculator (`server.js`) -/

/-- Embeds `getBlockSubsidy(height)`: halve the 5000 MEWC initial subsidy every
2,100,000 blocks, flooring to zero after 64 halvings. -/
def getBlockSubsidy (height : Nat) : ℚ :=
  let halvings := height / 2100000
  if halvings ≥ 64 then 0
  else 5000 / 2 ^ halvings

/-- The record produced by the `/block-reward` producer (height omitted). -/
structure SubsidyRecord where
  total : ℚ
  minerShare : ℚ
  foundationShare : ℚ
deriving DecidableEq

/-- The subsidy split computed by the `/block-reward` and `/reward-breakdown`
producers: `miner = subsidy * 0.60; foundation = subsidy * 0.40`. -/
def subsidyAt (height : Nat) : SubsidyRecord :=
  let subsidy := getBlockSubsidy height
  { total := subsidy
    minerShare := subsidy * 0.60
    foundationShare := subsidy * 0.40 }

/- ## Algorithm classifier (`detectAlgo`) -/

/-- The three classification outcomes `"meowpow"`, `"scrypt"`, `"unknown"`. -/
inductive Algo where
  | meowpow
  | scrypt
  | unknown
deriving DecidableEq

/-- Embeds `detectAlgo(version)`: mask the block version with `0xFFFFFF00` and
compare against the two hard-coded algorithm prefixes. -/
def detectAlgo (version : Nat) : Algo :=
  if version &&& 0xFFFFFF00 = 0x30090000 then Algo.meowpow
  else if version &&& 0xFFFFFF00 = 0x30090100 then Algo.scrypt
  else Algo.unknown

/- ## Block statistics aggregator (`calculateBlockStats`) -/

/-- A block sample `{height, time, version}` collected by the block-range
scan of the `/mining-info` producer. -/
structure Block where
  height : Nat
  time : Int
  version : Nat
deriving DecidableEq

/-- Per-algorithm output `{blocks_found, avg_block_time}` (`null` → `none`). -/
structure AlgoStats where
  blocks_found : Nat
  avg_block_time : Option Int
deriving DecidableEq

/-- The aggregator's result object `{meowpow: ..., scrypt: ...}`. -/
structure BlockStats where
  meowpow : AlgoStats
  scrypt : AlgoStats
deriving DecidableEq

/-- The window filter `blocks.filter(b => b.time && (now - b.time) <= windowSeconds)`
with `windowSeconds = windowMinutes * 60` (`b.time` truthy ↔ nonzero). -/
def windowBlocks (blocks : List Block) (windowMinutes now : Int) : List Block :=
  blocks.filter fun b =>
    decide (b.time ≠ 0) && decide (now - b.time ≤ windowMinutes * 60)

/-- The in-window blocks pushed onto `meowpowBlocks` by the `forEach` loop. -/
def meowpowBlocks (blocks : List Block) (windowMinutes now : Int) : List Block :=
  (windowBlocks blocks windowMinutes now).filter fun b =>
    decide (detectAlgo b.version = Algo.meowpow)

/-- The in-window blocks pushed onto `scryptBlocks` by the `forEach` loop. -/
def scryptBlocks (blocks : List Block) (windowMinutes now : Int) : List Block :=
  (windowBlocks blocks windowMinutes now).filter fun b =>
    decide (detectAlgo b.version = Algo.scrypt)

/-- Embeds `array.sort((a, b) => a.time - b.time)`: a stable sort ascending by
`time` (JavaScript's `Array.prototype.sort` is specified as stable). -/
def sortByTime (l : List Block) : List Block :=
  List.insertionSort (fun a b => a.time ≤ b.time) l

/-- The spacing loop of `calculateAvgBlockTime`: consecutive time deltas of
the (sorted) block list, keeping only spacings in `(0, 3600]` seconds. -/
def validSpacings : List Block → List Int
  | a :: b :: rest =>
    let spacing := b.time - a.time
    if 0 < spacing ∧ spacing ≤ 3600 then spacing :: validSpacings (b :: rest)
    else validSpacings (b :: rest)
  | _ => []

/-- Embeds `calculateAvgBlockTime(algoBlocks)`: `null` with fewer than two blocks
or when every spacing was filtered out, otherwise the mean of the retained
spacings (the double division is embedded as exact rational division). -/
def calculateAvgBlockTime (algoBlocks : List Block) : Option ℚ :=
  if algoBlocks.length < 2 then none
  else
    let spacings := validSpacings algoBlocks
    if spacings.length = 0 then none
    else some ((spacings.sum : ℚ) / (spacings.length : ℚ))

/-- Embeds `Math.round(x)`: round half toward positive infinity. -/
def jsRound (q : ℚ) : Int :=
  ⌊q + 1 / 2⌋

/-- The result expression `avgTime ? Math.round(avgTime) : null` (a numeric
`avgTime` is falsy exactly when it is `0`). -/
def roundIfTruthy : Option ℚ → Option Int
  | none => none
  | some q => if q = 0 then none else some (jsRound q)

/-- Embeds `calculateBlockStats(blocks, windowMinutes)`.  The `Date.now()/1000`
read performed at its first line is threaded as the explicit `now`
parameter. -/
def calculateBlockStats (blocks : List Block) (windowMinutes now : Int) :
    BlockStats :=
  { meowpow :=
      { blocks_found := (sortByTime (meowpowBlocks blocks windowMinutes now)).length
        avg_block_time :=
          roundIfTruthy (calculateAvgBlockTime
            (sortByTime (meowpowBlocks blocks windowMinutes now))) }
    scrypt :=
      { blocks_found := (sortByTime (scryptBlocks blocks windowMinutes now)).length
        avg_block_time :=
          roundIfTruthy (calculateAvgBlockTime
            (sortByTime (scryptBlocks blocks windowMinutes now))) } }

/-- Specification-side helper: all consecutive spacings of a time sequence,
before any filtering. -/
def allSpacings : List Int → List Int
  | a :: b :: rest => (b - a) :: allSpacings (b :: rest)
  | _ => []

/-- Two MeowPow samples 100 seconds apart, used by the aggregator
counterexample and witnesses. -/
def demoBlocks : List Block :=
  [{ height := 1, time := 100, version := 0x30090000 },
   { height := 2, time := 200, version := 0x30090000 }]

/-- The spec's scenario sample set: three MeowPow blocks at times 1000,
1100, 1300 (spacings 100 and 200). -/
def scenarioBlocks : List Block :=
  [{ height := 10, time := 1000, version := 0x30090001 },
   { height := 11, time := 1100, version := 0x30090002 },
   { height := 12, time := 1300, version := 0x30090003 }]

/- ## RPC command parsing (`rpc.js`) -/

/-- The whitespace class matched by `\s` for the command strings this
service builds (ASCII whitespace). -/
def isWS (c : Char) : Bool :=
  c == ' ' || c == '\t' || c == '\n' || c == '\r'

/-- Embeds `cmd.trim()`: strip leading and trailing whitespace. -/
def jsTrim (l : List Char) : List Char :=
  ((l.dropWhile isWS).reverse.dropWhile isWS).reverse

/-- Accumulator worker for splitting on `/\s+/`: `acc` holds the current
token reversed. -/
def wsTokensAux (acc : List Char) : List Char → List (List Char)
  | [] => if acc.isEmpty then [] else [acc.reverse]
  | c :: cs =>
    if isWS c then
      if acc.isEmpty then wsTokensAux [] cs
      else acc.reverse :: wsTokensAux [] cs
    else wsTokensAux (c :: acc) cs

/-- Embeds `str.split(/\s+/)` on a trimmed string: the maximal whitespace-free
runs, in order.  (On the empty string JavaScript returns `[""]`; that case
is handled at the use site in `parseCommand`.) -/
def wsTokens (l : List Char) : List (List Char) :=
  wsTokensAux [] l

/-- Value of a decimal digit string. -/
def digitsVal (l : List Char) : Nat :=
  l.foldl (fun n c => 10 * n + (c.toNat - 48)) 0

/-- Numeric value of an unsigned decimal numeral split at the decimal
point; `none` when either part has a non-digit or both are empty. -/
def jsNumberOfDigits (intPart fracPart : List Char) : Option ℚ :=
  if intPart.isEmpty ∧ fracPart.isEmpty then none
  else if intPart.all Char.isDigit ∧ fracPart.all Char.isDigit then
    some ((digitsVal intPart : ℚ) + (digitsVal fracPart : ℚ) / 10 ^ fracPart.length)
  else none

/-- Unsigned part of the `Number(p)` coercion: at most one decimal point. -/
def jsNumberUnsigned (l : List Char) : Option ℚ :=
  match l.splitOn '.' with
  | [ip] => jsNumberOfDigits ip []
  | [ip, fp] => jsNumberOfDigits ip fp
  | _ => none

/-- Models the JavaScript `Number(p)` coercion combined with the `isNaN`
check of `parseCommand`, for decimal numerals (optional sign, digits,
optional fraction); `none` plays the role of `NaN`.  Exponent, hexadecimal
and `Infinity` forms — never produced by this service's callers — are
conservatively treated as non-numeric. -/
def jsNumber (l : List Char) : Option ℚ :=
  match l with
  | [] => some 0
  | '-' :: rest => (jsNumberUnsigned rest).map (fun q => -q)
  | '+' :: rest => jsNumberUnsigned rest
  | _ => jsNumberUnsigned l

/-- A parsed RPC parameter: number when `Number(p)` is not `NaN`, otherwise
the original string. -/
inductive RpcParam where
  | num : ℚ → RpcParam
  | str : String → RpcParam
deriving DecidableEq

/-- Embeds the coercion `p => isNaN(Number(p)) ? p : Number(p)` applied to each parameter token. -/
def coerceParam (p : List Char) : RpcParam :=
  match jsNumber p with
  | some q => RpcParam.num q
  | none => RpcParam.str (String.mk p)

/-- The `{ method, params }` record returned by `parseCommand`. -/
structure RpcCommand where
  method : String
  params : List RpcParam
deriving DecidableEq

/-- Embeds `parseCommand(cmd)`: trim, split on whitespace runs, take the first
token as the method and coerce the remaining tokens.  The first match arm
models the JavaScript edge case `"".split(/\s+/) == [""]`, whose `parts[0]`
is `""` with no further parts. -/
def parseCommand (cmd : String) : RpcCommand :=
  match wsTokens (jsTrim cmd.toList) with
  | [] => { method := "", params := [] }
  | m :: rest => { method := String.mk m, params := rest.map coerceParam }

/-- Specification-side helper: join a token list with single spaces (the
shape of command strings such as `"getblock <hash> 1"` built by the
callers). -/
def joinTokens : List (List Char) → List Char
  | [] => []
  | [t] => t
  | t :: ts => t ++ ' ' :: joinTokens ts

/- ## Helper lemmas -/

/-- Bits 0..7 of the mask `0xFFFFFF00` are clear, so or-ing `0xFF` into a
version does not change its masked value. -/
lemma land_mask_lor_ff (v : Nat) :
    (v ||| 0xFF) &&& 0xFFFFFF00 = v &&& 0xFFFFFF00 := by
  apply Nat.eq_of_testBit_eq
  intro i
  rw [Nat.testBit_land, Nat.testBit_land, Nat.testBit_lor]
  rcases Nat.lt_or_ge i 8 with h8 | h8
  · have hm : Nat.testBit 0xFFFFFF00 i = false := by
      have he : (0xFFFFFF00 : Nat) = 0xFFFFFF <<< 8 := by decide
      rw [he, Nat.testBit_shiftLeft]
      simp [Nat.not_le.mpr h8]
    simp [hm]
  · have hb : Nat.testBit 0xFF i = false := by
      apply Nat.testBit_lt_two_pow
      calc (0xFF : Nat) < 2 ^ 8 := by decide
        _ ≤ 2 ^ i := Nat.pow_le_pow_right (by decide) h8
    simp [hb]

/- ## Claim theorems: cache and orchestrator -/

/-- C1: when `cachedFetch` is invoked with the cache not fresh (or the key
absent) and the producer fails, it returns the previously cached value for
the key when one exists (not an error), and propagates the producer's error
when no prior value exists. -/
theorem cachedFetch_failure_fallback {V E : Type} (TTL now : Int)
    (key : CacheKey) (e : E) (c : CacheState V)
    (hmiss : isCacheValid TTL now c = false ∨ c.data key = none) :
    (∀ v, c.data key = some v →
      cachedFetch TTL now key (Except.error e) c = (Except.ok v, c))
    ∧ (c.data key = none →
      cachedFetch TTL now key (Except.error e) c = (Except.error e, c)) := by
  constructor
  · intro v hv
    rcases hmiss with hm | hm
    · unfold cachedFetch
      rw [hm]
      simp [hv]
    · rw [hv] at hm
      exact absurd hm (by simp)
  · intro hnone
    unfold cachedFetch
    rcases hmiss with hm | hm <;> simp [hm, hnone]

/-- Concrete cache state used by the cache witnesses: `total_supply` holds a
stale value `42`, nothing else is cached, never stamped (`updated = 0`). -/
def demoCache : CacheState Nat :=
  { data := fun k => if k = CacheKey.total_supply then some 42 else none
    updated := 0 }

/-- Witness for C1: on `demoCache` (not fresh), a failing producer for
`total_supply` yields the stale `42`. -/
theorem cachedFetch_failure_fallback_witness :
    (isCacheValid 60000 5 demoCache = false
      ∨ demoCache.data CacheKey.total_supply = none)
    ∧ cachedFetch 60000 5 CacheKey.total_supply
        (Except.error "boom") demoCache = (Except.ok 42, demoCache) :=
  ⟨Or.inl (by decide),
    (cachedFetch_failure_fallback 60000 5 CacheKey.total_supply "boom" demoCache
      (Or.inl (by decide))).1 42 rfl⟩

/-- C10: a failing producer leaves the cache store entirely unchanged —
every key's stored value and the shared `updated` timestamp — both on the
stale-fallback path and on the error-propagation path. -/
theorem cachedFetch_error_leaves_cache {V E : Type} (TTL now : Int)
    (key : CacheKey) (e : E) (c : CacheState V) :
    (cachedFetch TTL now key (Except.error e) c).2 = c := by
  unfold cachedFetch
  cases (if isCacheValid TTL now c then c.data key else none) with
  | some v => rfl
  | none => cases c.data key <;> rfl

/-- C3: the cache holds exactly one shared last-write timestamp: a
successful producer run for any key `k2` stamps it to `now` (first
conjunct); `isCacheValid` holds iff that shared timestamp is nonzero and
younger than the TTL (second conjunct); consequently a later fetch for a
different key `k` is served as a cache hit with `k`'s older value — for
every producer, including failing ones — solely because of the write to
`k2` (third conjunct). -/
theorem cache_shared_lastWrite {V E : Type} (TTL t1 t2 : Int)
    (k k2 : CacheKey) (c : CacheState V) (v w : V) (p2 : Except E V)
    (hkk : k ≠ k2)
    (hold : c.data k = some v)
    (hmiss : isCacheValid TTL t1 c = false ∨ c.data k2 = none)
    (ht1 : t1 ≠ 0)
    (hfresh : t2 - t1 < TTL) :
    (cachedFetch TTL t1 k2 (Except.ok w : Except E V) c).2.updated = t1
    ∧ (∀ (ttl now : Int) (c3 : CacheState V),
        isCacheValid ttl now c3 = true ↔ (c3.updated ≠ 0 ∧ now - c3.updated < ttl))
    ∧ cachedFetch TTL t2 k p2 ((cachedFetch TTL t1 k2 (Except.ok w : Except E V) c).2)
        = (Except.ok v, (cachedFetch TTL t1 k2 (Except.ok w : Except E V) c).2) := by
  have hchar : ∀ (ttl now : Int) (c3 : CacheState V),
      isCacheValid ttl now c3 = true ↔ (c3.updated ≠ 0 ∧ now - c3.updated < ttl) := by
    intro ttl now c3
    unfold isCacheValid
    by_cases h0 : c3.updated = 0 <;> simp [h0]
  have hc2 : (cachedFetch TTL t1 k2 (Except.ok w : Except E V) c).2 = setKey c k2 w t1 := by
    unfold cachedFetch
    rcases hmiss with hm | hm <;> simp [hm]
  refine ⟨by rw [hc2]; rfl, hchar, ?_⟩
  rw [hc2]
  have hdata : (setKey c k2 w t1).data k = some v := by
    unfold setKey
    simp [hkk, hold]
  have hvalid : isCacheValid TTL t2 (setKey c k2 w t1) = true := by
    rw [hchar]
    exact ⟨ht1, hfresh⟩
  unfold cachedFetch
  rw [hvalid]
  simp [hdata]

/-- Witness for C3: writing `height` at `t1 = 5` makes the fetch for the
unrelated, never-fresh key `total_supply` at `t2 = 6` a cache hit. -/
theorem cache_shared_lastWrite_witness :
    (CacheKey.total_supply ≠ CacheKey.height
      ∧ demoCache.data CacheKey.total_supply = some 42
      ∧ (isCacheValid 60000 5 demoCache = false
          ∨ demoCache.data CacheKey.height = none)
      ∧ (5 : Int) ≠ 0 ∧ (6 : Int) - 5 < 60000)
    ∧ cachedFetch 60000 6 CacheKey.total_supply
        (Except.error "down")
        ((cachedFetch 60000 5 CacheKey.height
            (Except.ok 7 : Except String Nat) demoCache).2)
      = (Except.ok 42,
          (cachedFetch 60000 5 CacheKey.height
            (Except.ok 7 : Except String Nat) demoCache).2) :=
  ⟨⟨by decide, rfl, Or.inl (by decide), by decide, by decide⟩,
    (cache_shared_lastWrite 60000 5 6 CacheKey.total_supply CacheKey.height
      demoCache 42 7 (Except.error "down") (by decide) rfl
      (Or.inl (by decide)) (by decide) (by decide)).2.2⟩

/- ## Claim theorems: subsidy -/

/-- C2: for every height `h`, the subsidy total is `5000 / 2^(h / 2100000)`
below 64 halvings and `0` afterwards; the miner share is 60% and the
foundation share 40% of the total, summing exactly to the total; and the
spec's two scenario points evaluate as stated. -/
theorem subsidyAt_spec (h : Nat) :
    (subsidyAt h).total
        = (if h / 2100000 < 64 then (5000 : ℚ) / 2 ^ (h / 2100000) else 0)
    ∧ (subsidyAt h).minerShare = (subsidyAt h).total * 0.60
    ∧ (subsidyAt h).foundationShare = (subsidyAt h).total * 0.40
    ∧ (subsidyAt h).minerShare + (subsidyAt h).foundationShare = (subsidyAt h).total
    ∧ subsidyAt 0 = { total := 5000, minerShare := 3000, foundationShare := 2000 }
    ∧ subsidyAt 2100000 = { total := 2500, minerShare := 1500, foundationShare := 1000 } := by
  refine ⟨?_, rfl, rfl, ?_, ?_, ?_⟩
  · show getBlockSubsidy h = _
    unfold getBlockSubsidy
    rcases Nat.lt_or_ge (h / 2100000) 64 with hlt | hge
    · rw [if_neg (by omega), if_pos hlt]
    · rw [if_pos hge, if_neg (by omega)]
  · show getBlockSubsidy h * 0.60 + getBlockSubsidy h * 0.40 = getBlockSubsidy h
    rw [← mul_add]
    norm_num
  · simp only [subsidyAt, getBlockSubsidy]
    norm_num
  · simp only [subsidyAt, getBlockSubsidy]
    norm_num

/- ## Claim theorems: algorithm classifier -/

/-- C5: `detectAlgo` returns `meowpow` exactly when the version masked with
`0xFFFFFF00` equals `0x30090000`, `scrypt` exactly when it equals
`0x30090100`, and `unknown` otherwise; in addition the three concrete
versions from the spec classify as stated. -/
theorem detectAlgo_spec (v : Nat) :
    (detectAlgo v = Algo.meowpow ↔ v &&& 0xFFFFFF00 = 0x30090000)
    ∧ (detectAlgo v = Algo.scrypt ↔ v &&& 0xFFFFFF00 = 0x30090100)
    ∧ (detectAlgo v = Algo.unknown
        ↔ (v &&& 0xFFFFFF00 ≠ 0x30090000 ∧ v &&& 0xFFFFFF00 ≠ 0x30090100))
    ∧ detectAlgo 0x30090042 = Algo.meowpow
    ∧ detectAlgo 0x30090177 = Algo.scrypt
    ∧ detectAlgo 0x12345678 = Algo.unknown := by
  refine ⟨?_, ?_, ?_, by decide, by decide, by decide⟩ <;>
    · unfold detectAlgo
      split_ifs <;> simp_all

/-- Witness for C5 at the concrete version `0x30090042`. -/
theorem detectAlgo_spec_witness :
    detectAlgo 0x30090042 = Algo.meowpow
    ∧ (0x30090042 : Nat) &&& 0xFFFFFF00 = 0x30090000 :=
  ⟨(detectAlgo_spec 0x30090042).2.2.2.1,
    ((detectAlgo_spec 0x30090042).1).mp (by decide)⟩

/-- C6: for every 32-bit version, `detectAlgo` lands in one of the three
kinds, and or-ing the low byte full of ones does not change the result (the
low byte is irrelevant to the classification). -/
theorem detectAlgo_total_lowByte_irrelevant (v : Nat) (_hv : v < 2 ^ 32) :
    (detectAlgo v = Algo.meowpow ∨ detectAlgo v = Algo.scrypt
      ∨ detectAlgo v = Algo.unknown)
    ∧ detectAlgo (v ||| 0xFF) = detectAlgo v := by
  constructor
  · unfold detectAlgo
    split_ifs <;> simp
  · unfold detectAlgo
    rw [land_mask_lor_ff]

/-- Witness for C6 at the concrete version `0x30090042`. -/
theorem detectAlgo_total_lowByte_irrelevant_witness :
    (0x30090042 : Nat) < 2 ^ 32
    ∧ detectAlgo (0x30090042 ||| 0xFF) = detectAlgo 0x30090042 :=
  ⟨by decide,
    (detectAlgo_total_lowByte_irrelevant 0x30090042 (by decide)).2⟩

/- ## Helper lemmas: block statistics -/

lemma validSpacings_eq_filter :
    ∀ l : List Block,
      validSpacings l
        = (allSpacings (l.map Block.time)).filter
            (fun s => decide (0 < s ∧ s ≤ 3600))
  | [] => rfl
  | [_] => rfl
  | a :: b :: rest => by
    have ih := validSpacings_eq_filter (b :: rest)
    simp only [List.map_cons] at ih ⊢
    rw [validSpacings, allSpacings, List.filter_cons]
    simp only [decide_eq_true_eq]
    rw [← ih]

lemma mem_validSpacings {s : Int} {l : List Block}
    (h : s ∈ validSpacings l) : 0 < s ∧ s ≤ 3600 := by
  rw [validSpacings_eq_filter] at h
  have h2 := (List.mem_filter.mp h).2
  simpa using h2

lemma validSpacings_sum_pos {l : List Block} (h : validSpacings l ≠ []) :
    0 < (validSpacings l).sum :=
  List.sum_pos _ (fun _ hs => (mem_validSpacings hs).1) h

lemma calculateAvgBlockTime_eq (bs : List Block) :
    calculateAvgBlockTime bs
      = if bs.length < 2 then none
        else if validSpacings bs = [] then none
        else some (((validSpacings bs).sum : ℚ) / ((validSpacings bs).length : ℚ)) := by
  unfold calculateAvgBlockTime
  by_cases h1 : bs.length < 2
  · rw [if_pos h1, if_pos h1]
  · rw [if_neg h1, if_neg h1]
    by_cases h2 : validSpacings bs = []
    · rw [if_pos (by simp [h2]), if_pos h2]
    · rw [if_neg (by simpa [List.length_eq_zero] using h2), if_neg h2]

lemma avg_div_pos {bs : List Block} (h2 : validSpacings bs ≠ []) :
    (0 : ℚ) < ((validSpacings bs).sum : ℚ) / ((validSpacings bs).length : ℚ) := by
  apply div_pos
  · exact_mod_cast validSpacings_sum_pos h2
  · exact_mod_cast List.length_pos.mpr h2

lemma roundIfTruthy_avg_none_iff (bs : List Block) :
    roundIfTruthy (calculateAvgBlockTime bs) = none
      ↔ bs.length < 2 ∨ validSpacings bs = [] := by
  rw [calculateAvgBlockTime_eq]
  by_cases h1 : bs.length < 2
  · simp [h1, roundIfTruthy]
  · by_cases h2 : validSpacings bs = []
    · simp [h1, h2, roundIfTruthy]
    · rw [if_neg h1, if_neg h2]
      simp only [roundIfTruthy]
      rw [if_neg (ne_of_gt (avg_div_pos h2))]
      simp [h1, h2]

lemma roundIfTruthy_avg_some {bs : List Block}
    (hne : validSpacings bs ≠ []) (hlen : 2 ≤ bs.length) :
    roundIfTruthy (calculateAvgBlockTime bs)
      = some (jsRound
          (((validSpacings bs).sum : ℚ) / ((validSpacings bs).length : ℚ))) := by
  rw [calculateAvgBlockTime_eq, if_neg (by omega), if_neg hne]
  simp only [roundIfTruthy]
  rw [if_neg (ne_of_gt (avg_div_pos hne))]

instance : IsTotal Block (fun a b => a.time ≤ b.time) :=
  ⟨fun a b => le_total a.time b.time⟩

instance : IsTrans Block (fun a b => a.time ≤ b.time) :=
  ⟨fun _ _ _ h1 h2 => le_trans h1 h2⟩

lemma sortByTime_perm (l : List Block) : (sortByTime l).Perm l :=
  List.perm_insertionSort _ l

lemma sortByTime_length (l : List Block) : (sortByTime l).length = l.length :=
  (sortByTime_perm l).length_eq

lemma sortByTime_sorted (l : List Block) :
    List.Sorted (fun a b : Block => a.time ≤ b.time) (sortByTime l) :=
  List.sorted_insertionSort _ l

/-- Sorting two lists whose time multisets agree yields the same time
sequence (sortedness plus antisymmetry of `≤` on `ℤ` pin it down). -/
lemma map_time_sortByTime_eq {l1 l2 : List Block}
    (h : (l1.map Block.time).Perm (l2.map Block.time)) :
    (sortByTime l1).map Block.time = (sortByTime l2).map Block.time := by
  apply List.eq_of_perm_of_sorted (r := fun x y : Int => x ≤ y)
  · exact ((sortByTime_perm l1).map _).trans (h.trans ((sortByTime_perm l2).map _).symm)
  · exact List.Pairwise.map Block.time (fun _ _ hr => hr) (sortByTime_sorted l1)
  · exact List.Pairwise.map Block.time (fun _ _ hr => hr) (sortByTime_sorted l2)

lemma calculateAvgBlockTime_congr {l1 l2 : List Block}
    (h : l1.map Block.time = l2.map Block.time) :
    calculateAvgBlockTime l1 = calculateAvgBlockTime l2 := by
  have hlen : l1.length = l2.length := by
    rw [← List.length_map l1 Block.time, h, List.length_map]
  have hvs : validSpacings l1 = validSpacings l2 := by
    rw [validSpacings_eq_filter, validSpacings_eq_filter, h]
  rw [calculateAvgBlockTime_eq, calculateAvgBlockTime_eq, hlen, hvs]

/-- The aggregator's output is determined by the lengths and the time
multisets of the two algorithm partitions. -/
lemma calculateBlockStats_eq_of_parts {b1 b2 : List Block} {w now : Int}
    (hmp : ((meowpowBlocks b1 w now).map Block.time).Perm
        ((meowpowBlocks b2 w now).map Block.time))
    (hsc : ((scryptBlocks b1 w now).map Block.time).Perm
        ((scryptBlocks b2 w now).map Block.time)) :
    calculateBlockStats b1 w now = calculateBlockStats b2 w now := by
  have hmpe := map_time_sortByTime_eq hmp
  have hsce := map_time_sortByTime_eq hsc
  have hmplen : (sortByTime (meowpowBlocks b1 w now)).length
      = (sortByTime (meowpowBlocks b2 w now)).length := by
    rw [← List.length_map _ Block.time, hmpe, List.length_map]
  have hsclen : (sortByTime (scryptBlocks b1 w now)).length
      = (sortByTime (scryptBlocks b2 w now)).length := by
    rw [← List.length_map _ Block.time, hsce, List.length_map]
  unfold calculateBlockStats
  rw [calculateAvgBlockTime_congr hmpe, calculateAvgBlockTime_congr hsce,
    hmplen, hsclen]

/-- Filtering by a predicate that only looks at a projection commutes with
projecting: lists with equal projections filter to equal projections. -/
lemma filter_map_proj {α β : Type} (proj : α → β) (p : β → Bool) :
    ∀ {l1 l2 : List α}, l1.map proj = l2.map proj →
      (l1.filter fun a => p (proj a)).map proj
        = (l2.filter fun a => p (proj a)).map proj
  | [], [], _ => rfl
  | [], _ :: _, h => by simp at h
  | _ :: _, [], h => by simp at h
  | a :: t1, b :: t2, h => by
    simp only [List.map_cons, List.cons.injEq] at h
    obtain ⟨hab, ht⟩ := h
    have ih := filter_map_proj proj p ht
    simp only [List.filter_cons, hab]
    by_cases hp : p (proj b) = true
    · simp [hp, ih, hab]
    · simp [hp, ih]

/- ## Claim theorems: block statistics aggregator -/

/-- C4: for every sample sequence, window and clock value, and in each
algorithm partition: `blocks_found` is the partition's in-window sample
count (so spacing filtering never removes blocks from it, and an empty
partition reports `0`); the retained spacings are exactly the consecutive
spacings of the time-sorted partition lying in `(0, 3600]`;
`avg_block_time` is absent precisely when the partition has fewer than two
samples or every spacing was filtered out; otherwise it is the mean of the
retained spacings rounded by `jsRound`, which rounds to within half a
second of the exact mean. -/
theorem calculateBlockStats_spacing_spec (blocks : List Block) (w now : Int) :
    (calculateBlockStats blocks w now).meowpow.blocks_found
        = (meowpowBlocks blocks w now).length
    ∧ (calculateBlockStats blocks w now).scrypt.blocks_found
        = (scryptBlocks blocks w now).length
    ∧ (meowpowBlocks blocks w now = [] →
        (calculateBlockStats blocks w now).meowpow.blocks_found = 0)
    ∧ validSpacings (sortByTime (meowpowBlocks blocks w now))
        = (allSpacings ((sortByTime (meowpowBlocks blocks w now)).map Block.time)).filter
            (fun s => decide (0 < s ∧ s ≤ 3600))
    ∧ (∀ s ∈ validSpacings (sortByTime (meowpowBlocks blocks w now)),
        0 < s ∧ s ≤ 3600)
    ∧ ((calculateBlockStats blocks w now).meowpow.avg_block_time = none
        ↔ (meowpowBlocks blocks w now).length < 2
          ∨ validSpacings (sortByTime (meowpowBlocks blocks w now)) = [])
    ∧ ((calculateBlockStats blocks w now).scrypt.avg_block_time = none
        ↔ (scryptBlocks blocks w now).length < 2
          ∨ validSpacings (sortByTime (scryptBlocks blocks w now)) = [])
    ∧ (validSpacings (sortByTime (meowpowBlocks blocks w now)) ≠ [] →
        2 ≤ (meowpowBlocks blocks w now).length →
        (calculateBlockStats blocks w now).meowpow.avg_block_time
          = some (jsRound
              (((validSpacings (sortByTime (meowpowBlocks blocks w now))).sum : ℚ)
                / ((validSpacings (sortByTime (meowpowBlocks blocks w now))).length : ℚ))))
    ∧ (validSpacings (sortByTime (scryptBlocks blocks w now)) ≠ [] →
        2 ≤ (scryptBlocks blocks w now).length →
        (calculateBlockStats blocks w now).scrypt.avg_block_time
          = some (jsRound
              (((validSpacings (sortByTime (scryptBlocks blocks w now))).sum : ℚ)
                / ((validSpacings (sortByTime (scryptBlocks blocks w now))).length : ℚ))))
    ∧ (∀ q : ℚ, |(jsRound q : ℚ) - q| ≤ 1 / 2) := by
  refine ⟨sortByTime_length _, sortByTime_length _, ?_, validSpacings_eq_filter _,
    fun s hs => mem_validSpacings hs, ?_, ?_, ?_, ?_, ?_⟩
  · intro he
    show (sortByTime (meowpowBlocks blocks w now)).length = 0
    rw [sortByTime_length, he]
    rfl
  · show roundIfTruthy (calculateAvgBlockTime (sortByTime (meowpowBlocks blocks w now)))
        = none ↔ _
    rw [roundIfTruthy_avg_none_iff, sortByTime_length]
  · show roundIfTruthy (calculateAvgBlockTime (sortByTime (scryptBlocks blocks w now)))
        = none ↔ _
    rw [roundIfTruthy_avg_none_iff, sortByTime_length]
  · intro hne hlen
    exact roundIfTruthy_avg_some hne (by rw [sortByTime_length]; exact hlen)
  · intro hne hlen
    exact roundIfTruthy_avg_some hne (by rw [sortByTime_length]; exact hlen)
  · intro q
    have h1 : ((jsRound q : ℚ)) ≤ q + 1 / 2 := Int.floor_le _
    have h2 : q + 1 / 2 < (jsRound q : ℚ) + 1 := Int.lt_floor_add_one _
    rw [abs_le]
    constructor <;> linarith

/-- Witness for C4: on the spec's scenario samples (times 1000, 1100, 1300,
all MeowPow) with `now = 1300` and a 60-minute window, the spacings are
`[100, 200]`, three blocks are found and the average is 150 seconds. -/
theorem calculateBlockStats_spacing_spec_witness :
    validSpacings (sortByTime (meowpowBlocks scenarioBlocks 60 1300)) ≠ []
    ∧ 2 ≤ (meowpowBlocks scenarioBlocks 60 1300).length
    ∧ (calculateBlockStats scenarioBlocks 60 1300).meowpow.blocks_found = 3
    ∧ (calculateBlockStats scenarioBlocks 60 1300).meowpow.avg_block_time
        = some 150 := by
  have h := calculateBlockStats_spacing_spec scenarioBlocks 60 1300
  refine ⟨by decide, by decide, ?_, ?_⟩
  · rw [h.1]
    decide
  · have h8 := h.2.2.2.2.2.2.2.1 (by decide) (by decide)
    rw [h8]
    have hv : validSpacings (sortByTime (meowpowBlocks scenarioBlocks 60 1300))
        = [100, 200] := by decide
    rw [hv]
    show some (jsRound ((300 : ℚ) / 2)) = some 150
    norm_num [jsRound]

/-- C7: the aggregator's output is invariant under permutation of the
input sample sequence (the internal sort by time normalizes order). -/
theorem calculateBlockStats_perm_invariant (b1 b2 : List Block) (w now : Int)
    (hperm : b1.Perm b2) :
    calculateBlockStats b1 w now = calculateBlockStats b2 w now := by
  have hw : (windowBlocks b1 w now).Perm (windowBlocks b2 w now) :=
    hperm.filter _
  exact calculateBlockStats_eq_of_parts
    ((hw.filter _).map Block.time) ((hw.filter _).map Block.time)

/-- Witness for C7: swapping the two demo samples leaves the output
unchanged. -/
theorem calculateBlockStats_perm_invariant_witness :
    (demoBlocks.Perm demoBlocks.reverse)
    ∧ calculateBlockStats demoBlocks 60 250
        = calculateBlockStats demoBlocks.reverse 60 250 :=
  ⟨by decide,
    calculateBlockStats_perm_invariant demoBlocks demoBlocks.reverse 60 250
      (by decide)⟩

/-- C8 counterexample: `calculateBlockStats` takes only `(blocks,
windowMinutes)` from its caller and reads the wall clock internally
(`now = Math.floor(Date.now() / 1000)` in its first line); holding the
caller-supplied arguments fixed, two runs at different clock instants
return different results, so the output is not a function of the
caller-supplied inputs alone. -/
theorem calculateBlockStats_clock_dependent :
    calculateBlockStats demoBlocks 60 250
      ≠ calculateBlockStats demoBlocks 60 999999 := by
  intro h
  have e1 : (calculateBlockStats demoBlocks 60 250).meowpow.blocks_found = 2 := by
    decide
  have e2 : (calculateBlockStats demoBlocks 60 999999).meowpow.blocks_found = 0 := by
    decide
  rw [h, e2] at e1
  exact absurd e1 (by decide)

/-- C8 (amended): modelling the internal clock read as the explicit `now`
argument, the aggregator is a pure, deterministic function of the sample
sequence's observable `(time, version)` fields, `windowMinutes`, and the
sampled clock value: any two sample lists with equal `(time, version)`
sequences produce equal outputs at equal `windowMinutes` and `now`. -/
theorem calculateBlockStats_pure_function (b1 b2 : List Block) (w now : Int)
    (h : b1.map (fun b => (b.time, b.version))
        = b2.map (fun b => (b.time, b.version))) :
    calculateBlockStats b1 w now = calculateBlockStats b2 w now := by
  have hw : (windowBlocks b1 w now).map (fun b => (b.time, b.version))
      = (windowBlocks b2 w now).map (fun b => (b.time, b.version)) :=
    filter_map_proj (fun (b : Block) => (b.time, b.version))
      (fun tv => decide (tv.1 ≠ 0) && decide (now - tv.1 ≤ w * 60)) h
  have hmp : (meowpowBlocks b1 w now).map (fun b => (b.time, b.version))
      = (meowpowBlocks b2 w now).map (fun b => (b.time, b.version)) :=
    filter_map_proj (fun (b : Block) => (b.time, b.version))
      (fun tv => decide (detectAlgo tv.2 = Algo.meowpow)) hw
  have hsc : (scryptBlocks b1 w now).map (fun b => (b.time, b.version))
      = (scryptBlocks b2 w now).map (fun b => (b.time, b.version)) :=
    filter_map_proj (fun (b : Block) => (b.time, b.version))
      (fun tv => decide (detectAlgo tv.2 = Algo.scrypt)) hw
  apply calculateBlockStats_eq_of_parts
  · have h2 := congrArg (List.map Prod.fst) hmp
    have he : (meowpowBlocks b1 w now).map Block.time
        = (meowpowBlocks b2 w now).map Block.time := by
      simpa [List.map_map] using h2
    exact he ▸ List.Perm.refl _
  · have h2 := congrArg (List.map Prod.fst) hsc
    have he : (scryptBlocks b1 w now).map Block.time
        = (scryptBlocks b2 w now).map Block.time := by
      simpa [List.map_map] using h2
    exact he ▸ List.Perm.refl _

/-- Witness for the amended C8: raising every height by 1000 (times and
versions unchanged) leaves the aggregator's output unchanged. -/
theorem calculateBlockStats_pure_function_witness :
    (demoBlocks.map (fun b => (b.time, b.version))
      = (demoBlocks.map fun (b : Block) => { b with height := b.height + 1000 }).map
          (fun b => (b.time, b.version)))
    ∧ calculateBlockStats demoBlocks 60 250
        = calculateBlockStats
            (demoBlocks.map fun (b : Block) => { b with height := b.height + 1000 }) 60 250 :=
  ⟨by decide,
    calculateBlockStats_pure_function demoBlocks
      (demoBlocks.map fun (b : Block) => { b with height := b.height + 1000 }) 60 250
      (by decide)⟩

/- ## Helper lemmas: command tokenization -/

lemma wsTokensAux_allWS :
    ∀ l : List Char, (∀ c ∈ l, isWS c = true) →
      ∀ acc, wsTokensAux acc l = if acc.isEmpty then [] else [acc.reverse]
  | [], _, acc => rfl
  | c :: cs, h, acc => by
    have hc : isWS c = true := h c (List.mem_cons_self c cs)
    have ih := wsTokensAux_allWS cs (fun x hx => h x (List.mem_cons_of_mem c hx))
    by_cases ha : acc.isEmpty <;> simp [wsTokensAux, hc, ha, ih]

lemma wsTokensAux_append_token :
    ∀ t : List Char, (∀ c ∈ t, isWS c = false) →
      ∀ acc rest, wsTokensAux acc (t ++ rest) = wsTokensAux (t.reverse ++ acc) rest
  | [], _, acc, rest => by simp
  | c :: cs, h, acc, rest => by
    have hc : isWS c = false := h c (List.mem_cons_self c cs)
    have ih := wsTokensAux_append_token cs (fun x hx => h x (List.mem_cons_of_mem c hx))
    simp only [List.cons_append]
    rw [wsTokensAux, if_neg (by simp [hc]), ih (c :: acc) rest]
    simp

lemma wsTokensAux_append_ws :
    ∀ (l run : List Char), (∀ c ∈ run, isWS c = true) →
      ∀ acc, wsTokensAux acc (l ++ run) = wsTokensAux acc l
  | [], run, h, acc => by
    rw [List.nil_append, wsTokensAux_allWS run h acc]
    rfl
  | c :: cs, run, h, acc => by
    have ih := wsTokensAux_append_ws cs run h
    simp only [List.cons_append]
    by_cases hc : isWS c = true
    · by_cases ha : acc.isEmpty <;> simp [wsTokensAux, hc, ha, ih]
    · simp [wsTokensAux, hc, ih]

lemma wsTokensAux_dropWhile (l : List Char) :
    wsTokensAux [] (l.dropWhile isWS) = wsTokensAux [] l := by
  induction l with
  | nil => rfl
  | cons c cs ih =>
    rw [List.dropWhile_cons]
    by_cases hc : isWS c = true
    · rw [if_pos hc, ih]
      simp [wsTokensAux, hc]
    · rw [if_neg hc]

lemma jsTrim_decomp (l : List Char) :
    (∀ c ∈ ((l.dropWhile isWS).reverse.takeWhile isWS).reverse, isWS c = true)
    ∧ l.dropWhile isWS
        = jsTrim l ++ ((l.dropWhile isWS).reverse.takeWhile isWS).reverse := by
  constructor
  · intro c hc
    rw [List.mem_reverse] at hc
    exact List.mem_takeWhile_imp hc
  · conv_lhs => rw [← List.reverse_reverse (l.dropWhile isWS),
      ← List.takeWhile_append_dropWhile isWS (l.dropWhile isWS).reverse]
    rw [List.reverse_append]
    rfl

/-- Trimming first never changes the whitespace-run split. -/
lemma wsTokens_jsTrim (l : List Char) : wsTokens (jsTrim l) = wsTokens l := by
  obtain ⟨hrun, hdec⟩ := jsTrim_decomp l
  have h1 : wsTokens l = wsTokens (l.dropWhile isWS) :=
    (wsTokensAux_dropWhile l).symm
  rw [h1]
  show wsTokensAux [] (jsTrim l) = wsTokensAux [] (l.dropWhile isWS)
  rw [hdec, wsTokensAux_append_ws (jsTrim l) _ hrun []]

/-- The tokenizer recovers any single-space join of nonempty
whitespace-free tokens. -/
lemma wsTokens_joinTokens :
    ∀ ts : List (List Char),
      (∀ t ∈ ts, t ≠ [] ∧ ∀ c ∈ t, isWS c = false) →
      wsTokens (joinTokens ts) = ts
  | [], _ => rfl
  | [t], h => by
    obtain ⟨hne, hws⟩ := h t (List.mem_cons_self t [])
    show wsTokensAux [] (joinTokens [t]) = [t]
    have : joinTokens [t] = t ++ [] := by simp [joinTokens]
    rw [this, wsTokensAux_append_token t hws [] []]
    have hre : t.reverse.isEmpty = false := by
      cases ht : t.reverse with
      | nil => exact absurd (by simpa using ht) hne
      | cons x xs => rfl
    simp [wsTokensAux, hre]
  | t :: t2 :: ts, h => by
    obtain ⟨hne, hws⟩ := h t (List.mem_cons_self t (t2 :: ts))
    have ih := wsTokens_joinTokens (t2 :: ts)
      (fun x hx => h x (List.mem_cons_of_mem t hx))
    show wsTokensAux [] (joinTokens (t :: t2 :: ts)) = t :: t2 :: ts
    have hj : joinTokens (t :: t2 :: ts) = t ++ ' ' :: joinTokens (t2 :: ts) := rfl
    rw [hj, wsTokensAux_append_token t hws [] (' ' :: joinTokens (t2 :: ts))]
    have hre : t.reverse.isEmpty = false := by
      cases ht : t.reverse with
      | nil => exact absurd (by simpa using ht) hne
      | cons x xs => rfl
    have hsp : isWS ' ' = true := rfl
    rw [wsTokensAux, if_pos hsp]
    simp only [List.append_nil, hre, Bool.false_eq_true, if_false,
      List.reverse_reverse]
    show t :: wsTokens (joinTokens (t2 :: ts)) = t :: t2 :: ts
    rw [ih]

/- ## Claim theorems: RPC command parsing -/

/-- C9: for every command built as a whitespace-joined token sequence,
`parseCommand` splits it back into exactly those tokens, taking the first
as the method name and coercing each remaining token to a number exactly
when `Number` parses it cleanly (otherwise keeping the string); in
particular `"getdifficulty 0"` parses to method `"getdifficulty"` with the
single numeric parameter `0`. -/
theorem parseCommand_spec (t : List Char) (ts : List (List Char))
    (h : ∀ x ∈ t :: ts, x ≠ [] ∧ ∀ c ∈ x, isWS c = false) :
    parseCommand (String.mk (joinTokens (t :: ts)))
        = { method := String.mk t, params := ts.map coerceParam }
    ∧ parseCommand "getdifficulty 0"
        = { method := "getdifficulty", params := [RpcParam.num 0] } := by
  constructor
  · show (match wsTokens (jsTrim (joinTokens (t :: ts))) with
      | [] => ({ method := "", params := [] } : RpcCommand)
      | m :: rest => { method := String.mk m, params := rest.map coerceParam })
        = _
    rw [wsTokens_jsTrim, wsTokens_joinTokens (t :: ts) h]
  · have ht : wsTokens (jsTrim ("getdifficulty 0".toList))
        = ["getdifficulty".toList, ['0']] := by decide
    have hco : coerceParam ['0'] = RpcParam.num 0 := by
      have h0 : jsNumber ['0']
          = some ((digitsVal ['0'] : ℚ)
              + (digitsVal [] : ℚ) / 10 ^ ([] : List Char).length) := rfl
      unfold coerceParam
      rw [h0]
      have h1 : digitsVal ['0'] = 0 := rfl
      have h2 : digitsVal [] = 0 := rfl
      rw [h1, h2]
      norm_num
    unfold parseCommand
    rw [ht]
    simp [hco]

/-- Witness for C9: the join of the tokens `["getdifficulty", "0"]`
satisfies the hypotheses and parses as stated. -/
theorem parseCommand_spec_witness :
    (∀ x ∈ ["getdifficulty".toList, ['0']],
      x ≠ [] ∧ ∀ c ∈ x, isWS c = false)
    ∧ parseCommand (String.mk (joinTokens ["getdifficulty".toList, ['0']]))
        = { method := String.mk "getdifficulty".toList
            params := [['0']].map coerceParam } :=
  ⟨by decide,
    (parseCommand_spec "getdifficulty".toList [['0']] (by decide)).1⟩
